import Mathlib

/-!
Verification of the draft state & persistence reducer of the company-setup
wizard (SetupWizard.tsx).  The component's logic is shallowly embedded:

* `JVal` models the JSON-like runtime values the component stores in
  `state.data` (strings, booleans, objects, null, undefined; the program
  never puts numbers into `data`: text inputs dispatch strings and the
  toggles dispatch booleans).
* `set` embeds the dynamic path-set utility `set(obj, path, value)`.
* `reducer` embeds the `reducer(state, action)` switch.
* `saveDraft`, `next`, `prev`, `validateCurrent`, `handleSaveAndContinue`
  embed the persistence controller and validation of the component, with
  the remote call's outcome and the wall clock passed in as parameters and
  localStorage modelled as an optional stored snapshot.

JavaScript closure semantics matter and are modelled explicitly: inside
`saveDraft` and `handleSaveAndContinue` the identifier `state` is the state
captured at the render that created the closure, while every `dispatch`
acts on the live reducer state.
-/

namespace Wizard

/-- A JSON-ish JavaScript runtime value as stored in `state.data`. -/
inductive JVal where
  | str (s : String)
  | bool (b : Bool)
  | obj (entries : List (String × JVal))
  | jnull
  | undefined
deriving Repr

/-- JS property read on an object's entry list: first entry with the key,
`undefined` when the key is absent. -/
def getEntry : List (String × JVal) → String → JVal
  | [], _ => .undefined
  | (k1, v) :: rest, k => if k1 = k then v else getEntry rest k

/-- JS property assignment `o[k] = v` on an entry list: overwrites the
first entry with that key in place, otherwise appends the key. -/
def setKey : List (String × JVal) → String → JVal → List (String × JVal)
  | [], k, v => [(k, v)]
  | (k1, v1) :: rest, k, v =>
      if k1 = k then (k, v) :: rest else (k1, v1) :: setKey rest k v

/-- Entries of the JS object spread `{...x}`: an object's own entries; a
string spreads to its indexed characters; booleans, null and undefined
spread to nothing. -/
def jsSpread : JVal → List (String × JVal)
  | .obj e => e
  | .str s => (s.toList.enum).map (fun p => (toString p.1, JVal.str (String.mk [p.2])))
  | _ => []

/-- JS property read `o[k]` for the values this program stores: object
lookup, `undefined` for a missing key.  (JS would throw on a null or
undefined receiver and expose index/length properties on strings; no state
in this development reaches those cases, and they are mapped to
undefined.) -/
def jvField : JVal → String → JVal
  | .obj e, k => getEntry e k
  | _, _ => .undefined

/-- Read a chain of JS property accesses. -/
def getPath : JVal → List String → JVal
  | o, [] => o
  | o, k :: ks => getPath (jvField o k) ks

/-- JS truthiness of the values this program stores: empty string, false,
null and undefined are falsy. -/
def jvTruthy : JVal → Bool
  | .str s => s != ""
  | .bool b => b
  | .obj _ => true
  | .jnull => false
  | .undefined => false

/-- JS `a || b`: the first operand when truthy, otherwise the second. -/
def jvOr (a b : JVal) : JVal :=
  if jvTruthy a then a else b

/-- JS string coercion `String(v)` as applied by `RegExp.prototype.test` to
a non-string argument. -/
def jvToString : JVal → String
  | .str s => s
  | .bool b => if b then ("true") else ("false")
  | .obj _ => "[object Object]"
  | .jnull => "null"
  | .undefined => "undefined"

/-- JS `v.length < n` for the receivers the program produces here: a string
compares its length; any other receiver yields `undefined` for `.length`
in this program's data and `undefined < n` is false in JS. -/
def jvLenLt (v : JVal) (n : Nat) : Bool :=
  match v with
  | .str s => s.length < n
  | _ => false

/-- JS `String.prototype.split(".")` on the path strings the program uses:
splits at every dot, keeping empty pieces, and yields `[s]` when `s` has
no dot (including `[""]` for the empty string), as in JS. -/
def splitDot (s : String) : List String :=
  (s.toList.splitOn '.').map String.mk

/-- The loop body of the path-set utility applied to an already split key
list: `set` spreads the current level into a fresh object, walks to the
next key of the copy, and writes the value at the final key.
Faithfully to `cur[keys[i]] = { ...cur[keys[i]] }`, descending through a
missing key spreads `undefined` into a fresh empty object. -/
def setKeys : JVal → List String → JVal → JVal
  | o, [], _ => o
  | o, [k], v => .obj (setKey (jsSpread o) k v)
  | o, k :: rest, v => .obj (setKey (jsSpread o) k (setKeys (getEntry (jsSpread o) k) rest v))

/-- `set(obj, path, value)` of SetupWizard.tsx: immutably writes `value`
at the dot-separated `path` inside `obj`, copying along the path only.
(A call with a path that has no dot rewrites one key of a shallow copy;
the `keys.length = 0` case cannot arise, `split` always yields at least
one piece.) -/
def set (obj : JVal) (path : String) (value : JVal) : JVal :=
  setKeys obj (splitDot path) value

/-- The fixed step list `STEPS`. -/
structure Step where
  key : String
  label : String

def STEPS : List Step :=
  [⟨"account", "アカウント"⟩,
   ⟨"company", "会社情報"⟩,
   ⟨"members", "役員・株主"⟩,
   ⟨"docs", "必要書類"⟩,
   ⟨"review", "確認・提出"⟩]

/-- `WizardState`; `currentIndex` is a JS number, carried as an integer
(the program only ever produces small non-negative indices, proved below);
`error` is string-or-null with `none` for null, `savedAt` is an optional
ISO timestamp string. -/
structure WizardState where
  currentIndex : Int
  savedAt : Option String
  dirty : Bool
  saving : Bool
  error : Option String
  data : JVal

/-- A parsed localStorage snapshot: `Partial<WizardState>` as it comes out
of `JSON.parse`.  `none` on a field means the key is absent.  `error` is
string-or-null in the state, so a present key can carry null: hence
`Option (Option String)`. -/
structure Psnap where
  currentIndex : Option Int
  savedAt : Option String
  dirty : Option Bool
  saving : Option Bool
  error : Option (Option String)
  data : Option JVal

/-- The `Action` variant of SetupWizard.tsx.  `SET_SAVED_AT` carries its
optional explicit timestamp; `SET_ERROR`'s `value ?? null` collapses an
undefined payload into null, so one `Option String` covers it. -/
inductive Action where
  | goto (index : Int)
  | change (path : String) (value : JVal)
  | setSaving (value : Bool)
  | setSavedAt (value : Option String)
  | setDirty (value : Bool)
  | setError (value : Option String)
  | hydrate (p : Psnap)

/-- Entries of the JS object spread merge `{...a, ...b}`: start from `a`'s
entries and assign each entry of `b` in order. -/
def spreadMerge (a b : List (String × JVal)) : List (String × JVal) :=
  b.foldl (fun acc kv => setKey acc kv.1 kv.2) a

/-- `reducer(state, action)` of SetupWizard.tsx.  `now` is the wall clock
used by `new Date().toISOString()` when `SET_SAVED_AT` carries no value. -/
def reducer (now : String) (s : WizardState) (a : Action) : WizardState :=
  match a with
  | .goto i => { s with currentIndex := i, error := none }
  | .change p v => { s with data := set s.data p v, dirty := true }
  | .setSaving b => { s with saving := b }
  | .setSavedAt v => { s with savedAt := some (v.getD now), dirty := false }
  | .setDirty b => { s with dirty := b }
  | .setError v => { s with error := v }
  | .hydrate p =>
      { currentIndex := p.currentIndex.getD s.currentIndex
        savedAt := match p.savedAt with | some t => some t | none => s.savedAt
        dirty := p.dirty.getD s.dirty
        saving := p.saving.getD s.saving
        error := p.error.getD s.error
        data := .obj (spreadMerge (jsSpread s.data)
                  (match p.data with | some d => jsSpread d | none => [])) }

/-- `initialState` of SetupWizard.tsx. -/
def initialData : JVal :=
  .obj [("account", .obj [("email", .str ""), ("password", .str "")]),
        ("company", .obj [("nameJa", .str ""), ("nameEn", .str ""), ("address", .str "")]),
        ("members", .obj [("ceo", .str ""), ("directors", .str "")]),
        ("docs", .obj [("hankoReady", .bool false), ("bankCert", .bool false)]),
        ("review", .obj [("agree", .bool false)])]

def initialState : WizardState :=
  { currentIndex := 0, savedAt := none, dirty := false, saving := false,
    error := none, data := initialData }

/-- JS array indexing `STEPS[i]`, field `key`: out-of-range or negative
indices give `undefined` (rendered as `none`; the component would in fact
crash rendering `step.label` before such an index could be used). -/
def stepKeyAt (i : Int) : Option String :=
  if 0 ≤ i then (STEPS.get? i.toNat).map Step.key else none

/-- The JS whitespace class `\s` (the regex character class as ECMA-262
defines it: space separators, tab, line terminators, NBSP, BOM). -/
def isJsSpace (c : Char) : Bool :=
  c == ' ' || c == '\t' || c == '\n' || c == '\x0b' || c == '\x0c' || c == '\r' ||
  c == '\u00a0' || c == '\u1680' ||
  c == '\u2000' || c == '\u2001' || c == '\u2002' || c == '\u2003' ||
  c == '\u2004' || c == '\u2005' || c == '\u2006' || c == '\u2007' ||
  c == '\u2008' || c == '\u2009' || c == '\u200a' ||
  c == '\u2028' || c == '\u2029' || c == '\u202f' || c == '\u205f' ||
  c == '\u3000' || c == '\ufeff'

/-- One maximal run of the class `[^@\s]+`: nonempty, no `@`, no
whitespace. -/
def okRun (l : List Char) : Bool :=
  !l.isEmpty && l.all (fun c => c != '@' && !isJsSpace c)

/-- A `.` strictly inside the list: at a position other than the first and
the last.  (The regex piece `[^@\s]+\.[^@\s]+` matches a whitespace-free,
`@`-free string exactly when some dot has nonempty text on both sides,
because the class `[^@\s]` itself admits `.`.) -/
def hasInnerDot : List Char → Bool
  | [] => false
  | _ :: rest => rest.dropLast.contains '.'

/-- The anchored email regex `^[^@\s]+@[^@\s]+\.[^@\s]+$` of
`validateCurrent`: the whole string splits as `A@D` around its single `@`,
with `A` a nonempty run without `@` or whitespace, and `D` likewise plus a
dot strictly inside it (a match decomposes `D` as `B.C` with `B`, `C`
nonempty runs of `[^@\s]`, a class that itself admits further dots). -/
def emailTest (s : String) : Bool :=
  match s.toList.splitOn '@' with
  | [a, d] => okRun a && okRun d && hasInnerDot d
  | _ => false

def msgEmailRequired : String := "メールアドレスは必須です"
def msgEmailFormat : String := "メール形式が不正です"
def msgPasswordLen : String := "パスワードは8文字以上"
def msgNameJa : String := "商号（日本語）は必須です"
def msgAddress : String := "本店所在地は必須です"
def msgCeo : String := "代表者氏名は必須です"
def msgHanko : String := "印鑑の準備を完了してください"
def msgAgree : String := "規約同意が必要です"
def msgSaveFallback : String := "保存に失敗しました"
def msgNetwork : String := "ネットワークエラー"

/-- `validateCurrent()` of SetupWizard.tsx over the live state: switch on
`STEPS[state.currentIndex].key`, first failing rule returns its message. -/
def validateCurrent (s : WizardState) : Option String :=
  let d := s.data
  match stepKeyAt s.currentIndex with
  | some ("account") =>
      if !jvTruthy (jvField (jvField d ("account")) ("email")) then some msgEmailRequired
      else if !emailTest (jvToString (jvField (jvField d ("account")) ("email"))) then
        some msgEmailFormat
      else if jvLenLt (jvOr (jvField (jvField d ("account")) ("password")) (.str (""))) 8 then
        some msgPasswordLen
      else none
  | some ("company") =>
      if !jvTruthy (jvField (jvField d ("company")) ("nameJa")) then some msgNameJa
      else if !jvTruthy (jvField (jvField d ("company")) ("address")) then some msgAddress
      else none
  | some ("members") =>
      if !jvTruthy (jvField (jvField d ("members")) ("ceo")) then some msgCeo
      else none
  | some ("docs") =>
      if !jvTruthy (jvField (jvField d ("docs")) ("hankoReady")) then some msgHanko
      else none
  | some ("review") =>
      if !jvTruthy (jvField (jvField d ("review")) ("agree")) then some msgAgree
      else none
  | _ => none

/-- `saveDraft`'s `opts.reason`. -/
inductive SaveReason where
  | manual
  | autosave

/-- Outcome of one `fakeSaveToServer` call: resolves, or rejects with an
error whose `message` is carried here (the stub throws
`new Error("ネットワークエラー")` with probability 0.05). -/
inductive RemoteResult where
  | ok
  | fail (msg : String)

/-- `JSON.stringify({ ...state, currentIndex: state.currentIndex, data:
state.data })` followed by `JSON.parse`: the payload's two fields are the
state's own, so the snapshot is the whole captured state; `stringify`
drops an undefined `savedAt`, and `error` (string or null) always
serializes. -/
def toSnapshot (s : WizardState) : Psnap :=
  { currentIndex := some s.currentIndex, savedAt := s.savedAt,
    dirty := some s.dirty, saving := some s.saving,
    error := some s.error, data := some s.data }

/-- Result of one run of a save routine: the live state after its
dispatches, the stored snapshot, and whether the remote call was made. -/
structure SaveResult where
  state : WizardState
  storage : Option Psnap
  remoteCalled : Bool

/-- `saveDraft(opts)` of SetupWizard.tsx, for a run whose remote call has
outcome `outcome`.  `s` is both the captured closure `state` (used for the
snapshot written to storage) and the live state the dispatches fold over
(no other action is interleaved during the run).  The dispatch order is
that of the source: SET_SAVING true, SET_ERROR null, the localStorage
write, then SET_SAVED_AT on success or SET_ERROR `e.message ||` fallback
on failure, then SET_SAVING false, and for a manual save SET_DIRTY
false. -/
def saveDraft (now : String) (s : WizardState) (reason : SaveReason)
    (outcome : RemoteResult) : SaveResult :=
  let s1 := reducer now s (.setSaving true)
  let s2 := reducer now s1 (.setError none)
  let stored := some (toSnapshot s)
  let s3 := match outcome with
    | .ok => reducer now s2 (.setSavedAt none)
    | .fail msg =>
        reducer now s2 (.setError (some (if msg = "" then msgSaveFallback else msg)))
  let s4 := reducer now s3 (.setSaving false)
  let s5 := match reason with
    | .manual => reducer now s4 (.setDirty false)
    | .autosave => s4
  { state := s5, storage := stored, remoteCalled := true }

/-- `next()`: move forward one step, a no-op at the last index. -/
def next (now : String) (s : WizardState) : WizardState :=
  if s.currentIndex < (STEPS.length : Int) - 1 then
    reducer now s (.goto (s.currentIndex + 1))
  else s

/-- `prev()`: move back one step, a no-op at index 0. -/
def prev (now : String) (s : WizardState) : WizardState :=
  if s.currentIndex > 0 then reducer now s (.goto (s.currentIndex - 1)) else s

/-- `handleSaveAndContinue()` of SetupWizard.tsx: validate the current
step; on an error only dispatch SET_ERROR and return (no storage write, no
remote call); otherwise run a manual `saveDraft` and then `next()`.  The
`next()` call reads `state.currentIndex` from the same render closure `s`
(the save's dispatches do not change the index, so guard and target agree
with the live state). -/
def handleSaveAndContinue (now : String) (s : WizardState) (st : Option Psnap)
    (outcome : RemoteResult) : SaveResult :=
  match validateCurrent s with
  | some err =>
      { state := reducer now s (.setError (some err)), storage := st, remoteCalled := false }
  | none =>
      let r := saveDraft now s .manual outcome
      let after :=
        if s.currentIndex < (STEPS.length : Int) - 1 then
          reducer now r.state (.goto (s.currentIndex + 1))
        else r.state
      { state := after, storage := r.storage, remoteCalled := r.remoteCalled }

/-- Valid path for the path-set utility: every segment but the last names
an existing key of an object whose value at that key is again traversable,
and the parent of the final segment is an object (the final key itself
need not exist). -/
def validPathB : List String → JVal → Bool
  | [], _ => false
  | [_], .obj _ => true
  | [_], _ => false
  | k :: rest, .obj e => validPathB rest (getEntry e k)
  | _ :: _, _ => false

/-- Two key paths name sibling branches: they agree on a (possibly empty)
common stem and then differ at a position both still have. -/
def Diverges : List String → List String → Prop
  | p :: ps, q :: qs => p ≠ q ∨ (p = q ∧ Diverges ps qs)
  | _, _ => False

/-- The states and stored snapshots reachable through the component's own
event handlers starting from a fresh process with empty storage: the
step-indicator clicks (`GOTO i` for an index of `STEPS`), the prev button,
field edits, manual and automatic `saveDraft` runs, the
save-and-continue button, the mount-time hydration of whatever the
program itself stored, a relaunch of the process against the surviving
storage, and the reset action. -/
inductive Reachable : WizardState → Option Psnap → Prop where
  | init : Reachable initialState none
  | relaunch {s st} : Reachable s st → Reachable initialState st
  | hydrateLoad {s st p} (now : String) : Reachable s st → st = some p →
      Reachable (reducer now s (.hydrate p)) st
  | stepClick {s st} (now : String) (i : Int) : Reachable s st → 0 ≤ i → i < 5 →
      Reachable (reducer now s (.goto i)) st
  | prevClick {s st} (now : String) : Reachable s st → Reachable (prev now s) st
  | changeField {s st} (now p v) : Reachable s st →
      Reachable (reducer now s (.change p v)) st
  | save {s st} (now : String) (reason : SaveReason) (outcome : RemoteResult) :
      Reachable s st →
      Reachable (saveDraft now s reason outcome).state (saveDraft now s reason outcome).storage
  | saveAndContinue {s st} (now : String) (outcome : RemoteResult) : Reachable s st →
      Reachable (handleSaveAndContinue now s st outcome).state
        (handleSaveAndContinue now s st outcome).storage
  | reset {s st} : Reachable s st → Reachable initialState none

/-- A wizard state whose account section carries the given email and
password, built from the defaults through two CHANGE dispatches. -/
def accountState (e p : String) : WizardState :=
  reducer ("t1")
    (reducer ("t0") initialState (.change ("account.email") (.str e)))
    (.change ("account.password") (.str p))

/-- Shape of a `data` object produced by this component: exactly the five
section keys, in their declared order. -/
def wellShapedData (d : JVal) : Bool :=
  match d with
  | .obj e => e.map Prod.fst == ["account", "company", "members", "docs", "review"]
  | _ => false

/-- The walk of a key-list prefix stays inside objects the whole way and
ends at an object: each listed segment names a key whose value is again an
object (a missing key would yield `undefined`, which is not an object). -/
def objChainB : List String → JVal → Bool
  | [], .obj _ => true
  | [], _ => false
  | k :: rest, .obj e => objChainB rest (getEntry e k)
  | _ :: _, _ => false

/-- The nested chain of fresh singleton objects the path-set walk builds
below a missing key: spreading `undefined` gives an empty object at every
remaining level, ending in the written value. -/
def freshChain : List String → JVal → JVal
  | [], v => v
  | k :: rest, v => .obj [(k, freshChain rest v)]

/-! ### Entry-list lemmas -/

theorem getEntry_setKey_self (e : List (String × JVal)) (k : String) (v : JVal) :
    getEntry (setKey e k v) k = v := by
  induction e with
  | nil => simp [setKey, getEntry]
  | cons hd tl ih =>
      obtain ⟨k1, v1⟩ := hd
      by_cases h : k1 = k
      · simp [setKey, h, getEntry]
      · simp [setKey, h, getEntry, ih]

theorem getEntry_setKey_ne (e : List (String × JVal)) (k q : String) (v : JVal)
    (h : q ≠ k) : getEntry (setKey e k v) q = getEntry e q := by
  have h1 : k ≠ q := Ne.symm h
  induction e with
  | nil => simp [setKey, getEntry, h1]
  | cons hd tl ih =>
      obtain ⟨k1, v1⟩ := hd
      by_cases hk : k1 = k
      · subst hk
        simp [setKey, getEntry, h1]
      · simp [setKey, hk, getEntry, ih]

theorem setKey_setKey (e : List (String × JVal)) (k : String) (a b : JVal) :
    setKey (setKey e k a) k b = setKey e k b := by
  induction e with
  | nil => simp [setKey]
  | cons hd tl ih =>
      obtain ⟨k1, v1⟩ := hd
      by_cases h : k1 = k
      · simp [setKey, h]
      · simp [setKey, h, ih]

theorem getEntry_of_notMem (e : List (String × JVal)) (k : String)
    (h : k ∉ e.map Prod.fst) : getEntry e k = .undefined := by
  induction e with
  | nil => rfl
  | cons hd tl ih =>
      obtain ⟨k1, v1⟩ := hd
      simp only [List.map_cons, List.mem_cons] at h
      push_neg at h
      have h1 : k1 ≠ k := Ne.symm h.1
      simp [getEntry, h1, ih h.2]

theorem setKey_of_notMem (e : List (String × JVal)) (k : String) (v : JVal)
    (h : k ∉ e.map Prod.fst) : setKey e k v = e ++ [(k, v)] := by
  induction e with
  | nil => rfl
  | cons hd tl ih =>
      obtain ⟨k1, v1⟩ := hd
      simp only [List.map_cons, List.mem_cons] at h
      push_neg at h
      have h1 : k1 ≠ k := Ne.symm h.1
      simp [setKey, h1, ih h.2]

/-! ### Path-set lemmas -/

theorem setKeys_idem (ks : List String) :
    ∀ (o v : JVal), setKeys (setKeys o ks v) ks v = setKeys o ks v := by
  induction ks with
  | nil => intro o v; rfl
  | cons k tail ih =>
      intro o v
      cases tail with
      | nil => simp [setKeys, jsSpread, setKey_setKey]
      | cons k2 t2 =>
          simp only [setKeys, jsSpread]
          rw [getEntry_setKey_self, ih, setKey_setKey]

theorem getPath_setKeys_self (ks : List String) :
    ∀ (o v : JVal), validPathB ks o = true → getPath (setKeys o ks v) ks = v := by
  induction ks with
  | nil => intro o v h; simp [validPathB] at h
  | cons k tail ih =>
      intro o v h
      cases tail with
      | nil =>
          cases o with
          | obj e => simp [setKeys, jsSpread, getPath, jvField, getEntry_setKey_self]
          | str s => simp [validPathB] at h
          | bool b => simp [validPathB] at h
          | jnull => simp [validPathB] at h
          | undefined => simp [validPathB] at h
      | cons k2 t2 =>
          cases o with
          | obj e =>
              have h2 : validPathB (k2 :: t2) (getEntry e k) = true := by
                simpa [validPathB] using h
              simp only [setKeys, jsSpread, getPath, jvField]
              rw [getEntry_setKey_self]
              exact ih _ _ h2
          | str s => simp [validPathB] at h
          | bool b => simp [validPathB] at h
          | jnull => simp [validPathB] at h
          | undefined => simp [validPathB] at h

theorem getPath_setKeys_sibling (ks : List String) :
    ∀ (qs : List String) (o v : JVal), validPathB ks o = true → Diverges ks qs →
      getPath (setKeys o ks v) qs = getPath o qs := by
  induction ks with
  | nil => intro qs o v h hd; simp [validPathB] at h
  | cons k tail ih =>
      intro qs o v h hd
      cases qs with
      | nil => simp [Diverges] at hd
      | cons q qt =>
          cases o with
          | obj e =>
              cases tail with
              | nil =>
                  have hq : k ≠ q := by
                    rcases hd with hne | ⟨heq, hfalse⟩
                    · exact hne
                    · simp [Diverges] at hfalse
                  simp only [setKeys, jsSpread, getPath, jvField]
                  rw [getEntry_setKey_ne _ _ _ _ (Ne.symm hq)]
              | cons k2 t2 =>
                  have h2 : validPathB (k2 :: t2) (getEntry e k) = true := by
                    simpa [validPathB] using h
                  rcases hd with hne | ⟨heq, hdiv⟩
                  · simp only [setKeys, jsSpread, getPath, jvField]
                    rw [getEntry_setKey_ne _ _ _ _ (Ne.symm hne)]
                  · subst heq
                    simp only [setKeys, jsSpread, getPath, jvField]
                    rw [getEntry_setKey_self]
                    exact ih _ _ _ h2 hdiv
          | str s => cases tail <;> simp [validPathB] at h
          | bool b => cases tail <;> simp [validPathB] at h
          | jnull => cases tail <;> simp [validPathB] at h
          | undefined => cases tail <;> simp [validPathB] at h

theorem setKeys_cons (o : JVal) (k : String) (rest : List String) (v : JVal)
    (h : rest ≠ []) :
    setKeys o (k :: rest) v
      = .obj (setKey (jsSpread o) k (setKeys (getEntry (jsSpread o) k) rest v)) := by
  cases rest with
  | nil => exact absurd rfl h
  | cons x xs => rfl

theorem validPathB_cons (k : String) (rest : List String) (e : List (String × JVal))
    (h : rest ≠ []) :
    validPathB (k :: rest) (.obj e) = validPathB rest (getEntry e k) := by
  cases rest with
  | nil => exact absurd rfl h
  | cons x xs => rfl

theorem getPath_append (a : List String) :
    ∀ (o : JVal) (b : List String), getPath o (a ++ b) = getPath (getPath o a) b := by
  induction a with
  | nil => intro o b; rfl
  | cons k a1 ih => intro o b; exact ih (jvField o k) b

theorem validPathB_append_last (pre : List String) :
    ∀ (o : JVal) (k : String), objChainB pre o = true →
      validPathB (pre ++ [k]) o = true := by
  induction pre with
  | nil =>
      intro o k h
      cases o with
      | obj e => rfl
      | str a => simp [objChainB] at h
      | bool a => simp [objChainB] at h
      | jnull => simp [objChainB] at h
      | undefined => simp [objChainB] at h
  | cons k1 pre1 ih =>
      intro o k h
      cases o with
      | obj e =>
          have h1 : objChainB pre1 (getEntry e k1) = true := by
            simpa [objChainB] using h
          rw [List.cons_append, validPathB_cons _ _ _ (by simp)]
          exact ih _ _ h1
      | str a => simp [objChainB] at h
      | bool a => simp [objChainB] at h
      | jnull => simp [objChainB] at h
      | undefined => simp [objChainB] at h

theorem setKeys_undefined_fresh (rest : List String) :
    ∀ (v : JVal), rest ≠ [] → setKeys .undefined rest v = freshChain rest v := by
  induction rest with
  | nil => intro v h; exact absurd rfl h
  | cons k rs ih =>
      intro v h
      cases rs with
      | nil => rfl
      | cons x xs =>
          rw [setKeys_cons _ _ _ _ (by simp),
            show jsSpread JVal.undefined = [] from rfl,
            show getEntry [] k = JVal.undefined from rfl,
            ih v (by simp)]
          rfl

/-- Observing the result of a path-set at the (object-chain) prefix of the
written path gives the subterm rebuilt by setting the rest of the path in
the original subterm at that prefix. -/
theorem getPath_setKeys_walk (pre : List String) :
    ∀ (o : JVal) (suffix : List String) (v : JVal), objChainB pre o = true →
      suffix ≠ [] →
      getPath (setKeys o (pre ++ suffix) v) pre = setKeys (getPath o pre) suffix v := by
  induction pre with
  | nil => intro o suffix v h hs; rfl
  | cons k pre1 ih =>
      intro o suffix v h hs
      cases o with
      | obj e =>
          have h1 : objChainB pre1 (getEntry e k) = true := by
            simpa [objChainB] using h
          have hne : pre1 ++ suffix ≠ [] := by simp [hs]
          rw [List.cons_append, setKeys_cons _ _ _ _ hne,
            show jsSpread (JVal.obj e) = e from rfl]
          rw [show getPath
                (JVal.obj (setKey e k (setKeys (getEntry e k) (pre1 ++ suffix) v)))
                (k :: pre1)
              = getPath (getEntry (setKey e k (setKeys (getEntry e k) (pre1 ++ suffix) v)) k)
                  pre1 from rfl]
          rw [getEntry_setKey_self, ih _ _ _ h1 hs]
          rfl
      | str a => simp [objChainB] at h
      | bool a => simp [objChainB] at h
      | jnull => simp [objChainB] at h
      | undefined => simp [objChainB] at h

/-! ### Spread-merge lemmas -/

theorem spreadMerge_cons (a : List (String × JVal)) (k : String) (v : JVal)
    (b : List (String × JVal)) :
    spreadMerge a ((k, v) :: b) = spreadMerge (setKey a k v) b := rfl

theorem getEntry_spreadMerge_notMem (b : List (String × JVal)) :
    ∀ (a : List (String × JVal)) (k : String), k ∉ b.map Prod.fst →
      getEntry (spreadMerge a b) k = getEntry a k := by
  induction b with
  | nil => intro a k _; rfl
  | cons hd tl ih =>
      obtain ⟨k1, v1⟩ := hd
      intro a k h
      simp only [List.map_cons, List.mem_cons] at h
      push_neg at h
      rw [spreadMerge_cons, ih _ _ h.2, getEntry_setKey_ne _ _ _ _ h.1]

theorem getEntry_spreadMerge_mem (b : List (String × JVal)) :
    ∀ (a : List (String × JVal)) (k : String), (b.map Prod.fst).Nodup →
      k ∈ b.map Prod.fst → getEntry (spreadMerge a b) k = getEntry b k := by
  induction b with
  | nil => intro a k _ h; simp at h
  | cons hd tl ih =>
      obtain ⟨k1, v1⟩ := hd
      intro a k hnd hmem
      simp only [List.map_cons, List.nodup_cons] at hnd
      rcases List.mem_cons.mp hmem with heq | hmem2
      · subst heq
        rw [spreadMerge_cons, getEntry_spreadMerge_notMem _ _ _ hnd.1,
          getEntry_setKey_self]
        simp [getEntry]
      · have hne : k1 ≠ k := by
          intro hh
          exact hnd.1 (hh ▸ hmem2)
        rw [spreadMerge_cons, ih _ _ hnd.2 hmem2]
        simp [getEntry, hne]

theorem spreadMerge_cons_notMem (b : List (String × JVal)) :
    ∀ (k : String) (v : JVal) (a : List (String × JVal)), k ∉ b.map Prod.fst →
      spreadMerge ((k, v) :: a) b = (k, v) :: spreadMerge a b := by
  induction b with
  | nil => intro k v a _; rfl
  | cons hd tl ih =>
      obtain ⟨k1, v1⟩ := hd
      intro k v a h
      simp only [List.map_cons, List.mem_cons] at h
      push_neg at h
      rw [spreadMerge_cons, spreadMerge_cons]
      have hne : k ≠ k1 := h.1
      have hset : setKey ((k, v) :: a) k1 v1 = (k, v) :: setKey a k1 v1 := by
        simp [setKey, hne]
      rw [hset, ih _ _ _ h.2]

theorem spreadMerge_same_keys (b : List (String × JVal)) :
    ∀ (a : List (String × JVal)), a.map Prod.fst = b.map Prod.fst →
      (b.map Prod.fst).Nodup → spreadMerge a b = b := by
  induction b with
  | nil => intro a hk _; simpa using List.map_eq_nil_iff.mp hk
  | cons hd tl ih =>
      obtain ⟨k1, v1⟩ := hd
      intro a hk hnd
      simp only [List.map_cons, List.nodup_cons] at hnd
      cases a with
      | nil => simp at hk
      | cons ahd atl =>
          obtain ⟨ka, va⟩ := ahd
          simp only [List.map_cons, List.cons.injEq] at hk
          rw [spreadMerge_cons]
          have hset : setKey ((ka, va) :: atl) k1 v1 = (k1, v1) :: atl := by
            simp [setKey, hk.1]
          rw [hset, spreadMerge_cons_notMem _ _ _ _ hnd.1, ih _ hk.2 hnd.2]

/-! ### Save-routine field lemmas -/

theorem saveDraft_currentIndex (now : String) (s : WizardState) (reason : SaveReason)
    (outcome : RemoteResult) :
    (saveDraft now s reason outcome).state.currentIndex = s.currentIndex := by
  cases reason <;> cases outcome <;> rfl

theorem saveDraft_storage (now : String) (s : WizardState) (reason : SaveReason)
    (outcome : RemoteResult) :
    (saveDraft now s reason outcome).storage = some (toSnapshot s) := by
  cases reason <;> cases outcome <;> rfl

theorem reducer_goto_currentIndex (now : String) (s : WizardState) (i : Int) :
    (reducer now s (.goto i)).currentIndex = i := rfl

/-! ### Claim theorems -/

/-- C1 counterexample: starting from the initial state, one CHANGE makes the
state dirty, and a subsequent *successful autosave* run of `saveDraft` (no
manual save anywhere in the trace) takes `dirty` from true to false — the
SET_SAVED_AT dispatched on any successful save unconditionally clears
`dirty`, contradicting the claim that only a successful manual save can. -/
theorem c1_dirty_only_manual_counterexample :
    (reducer ("t0") initialState (.change ("account.email") (.str ("x")))).dirty = true
  ∧ (saveDraft ("t1")
      (reducer ("t0") initialState (.change ("account.email") (.str ("x"))))
      .autosave .ok).state.dirty = false := ⟨rfl, rfl⟩

/-- C1 (amended): every CHANGE sets `dirty` to true; a single reducer step
takes `dirty` from true to false only through SET_SAVED_AT (dispatched by
`saveDraft` exactly on remote success, manual or autosave), through
SET_DIRTY false (dispatched at the end of every manual save regardless of
the remote outcome), or through a HYDRATE whose snapshot carries
`dirty = false`; consequently a save run started on a dirty state ends
with `dirty = false` exactly when the remote call succeeded or the save
was manual. -/
theorem c1_dirty_transitions_amended (now : String) :
    (∀ (s : WizardState) (p : String) (v : JVal),
        (reducer now s (.change p v)).dirty = true)
  ∧ (∀ (s : WizardState) (a : Action), s.dirty = true →
        (reducer now s a).dirty = false →
        (∃ t, a = .setSavedAt t) ∨ a = .setDirty false ∨
          (∃ pp, a = .hydrate pp ∧ pp.dirty = some false))
  ∧ (∀ (s : WizardState) (reason : SaveReason) (outcome : RemoteResult),
        s.dirty = true →
        ((saveDraft now s reason outcome).state.dirty = false ↔
          (outcome = .ok ∨ reason = .manual))) := by
  refine ⟨fun s p v => rfl, ?_, ?_⟩
  · intro s a hd hfalse
    cases a with
    | goto i => rw [show (reducer now s (.goto i)).dirty = s.dirty from rfl, hd] at hfalse; cases hfalse
    | change p v => cases hfalse
    | setSaving b => rw [show (reducer now s (.setSaving b)).dirty = s.dirty from rfl, hd] at hfalse; cases hfalse
    | setSavedAt t => exact Or.inl ⟨t, rfl⟩
    | setDirty b =>
        have hb : b = false := hfalse
        exact Or.inr (Or.inl (by rw [hb]))
    | setError v => rw [show (reducer now s (.setError v)).dirty = s.dirty from rfl, hd] at hfalse; cases hfalse
    | hydrate pp =>
        refine Or.inr (Or.inr ⟨pp, rfl, ?_⟩)
        cases hpd : pp.dirty with
        | none =>
            rw [show (reducer now s (.hydrate pp)).dirty = pp.dirty.getD s.dirty from rfl,
              hpd, Option.getD_none, hd] at hfalse
            cases hfalse
        | some b =>
            rw [show (reducer now s (.hydrate pp)).dirty = pp.dirty.getD s.dirty from rfl,
              hpd, Option.getD_some] at hfalse
            rw [hfalse]
  · intro s reason outcome hd
    cases reason <;> cases outcome <;>
      simp [saveDraft, reducer, hd]

/-- C1 amended witness: the change action on the initial state leaves a
dirty state, and an autosave whose remote call fails leaves it dirty
(neither success nor manual). -/
theorem c1_dirty_transitions_amended_witness :
    (reducer ("t") initialState (.change ("account.email") (.str ("x")))).dirty = true
  ∧ ((saveDraft ("t") { initialState with dirty := true } .autosave
        (.fail msgNetwork)).state.dirty = false ↔
      (RemoteResult.fail msgNetwork = .ok ∨ SaveReason.autosave = .manual)) :=
  ⟨(c1_dirty_transitions_amended ("t")).1 initialState ("account.email") (.str ("x")),
   (c1_dirty_transitions_amended ("t")).2.2 { initialState with dirty := true }
     .autosave (.fail msgNetwork) rfl⟩

/-- C2: a manual `saveDraft` run on a dirty state whose remote call fails
with a nonempty message ends with `dirty = false` (the final SET_DIRTY
false of the manual path), `error` set to that failure message,
`saving = false`, and the pre-save snapshot written to storage. -/
theorem c2_manual_save_failure (now : String) (s : WizardState) (msg : String)
    (hdirty : s.dirty = true) (hmsg : msg ≠ "") :
    (saveDraft now s .manual (.fail msg)).state.dirty = false
  ∧ (saveDraft now s .manual (.fail msg)).state.error = some msg
  ∧ (saveDraft now s .manual (.fail msg)).state.saving = false
  ∧ (saveDraft now s .manual (.fail msg)).storage = some (toSnapshot s) := by
  refine ⟨rfl, ?_, rfl, rfl⟩
  simp [saveDraft, reducer, hmsg]

/-- C2 witness at a concrete dirty state and the stub's network-error
message. -/
theorem c2_manual_save_failure_witness :
    (saveDraft ("t") { initialState with dirty := true } .manual
        (.fail msgNetwork)).state.dirty = false
  ∧ (saveDraft ("t") { initialState with dirty := true } .manual
        (.fail msgNetwork)).state.error = some msgNetwork
  ∧ (saveDraft ("t") { initialState with dirty := true } .manual
        (.fail msgNetwork)).state.saving = false
  ∧ (saveDraft ("t") { initialState with dirty := true } .manual
        (.fail msgNetwork)).storage
      = some (toSnapshot { initialState with dirty := true }) :=
  c2_manual_save_failure ("t") { initialState with dirty := true } msgNetwork rfl
    (by decide)

/-- C4: dispatching the same CHANGE twice from any state yields exactly the
state obtained by dispatching it once (the path-set utility is idempotent
at a fixed path and value, and CHANGE always sets `dirty := true`). -/
theorem c4_change_idempotent (now : String) (s : WizardState) (p : String) (v : JVal)
    (hvalid : validPathB (splitDot p) s.data = true) :
    reducer now (reducer now s (.change p v)) (.change p v)
      = reducer now s (.change p v) := by
  simp [reducer, set, setKeys_idem]

/-- C4 witness at the initial state and the account email path. -/
theorem c4_change_idempotent_witness :
    reducer ("t") (reducer ("t") initialState (.change ("account.email") (.str ("x"))))
        (.change ("account.email") (.str ("x")))
      = reducer ("t") initialState (.change ("account.email") (.str ("x"))) :=
  c4_change_idempotent ("t") initialState ("account.email") (.str ("x")) rfl

/-- C9 counterexample: on the container `{a: {b: "1"}}` and the path
`"x.y"`, whose first segment `x` does not exist, the utility creates a
fresh intermediate object `{y: "v"}` under the new key `x` (the spread of
`undefined` makes an empty object that the walk then fills), rather than
writing the value into the nonexistent key without restructuring. -/
theorem c9_missing_segment_counterexample :
    set (JVal.obj [("a", JVal.obj [("b", JVal.str ("1"))])]) ("x.y") (JVal.str ("v"))
      = JVal.obj [("a", JVal.obj [("b", JVal.str ("1"))]),
                  ("x", JVal.obj [("y", JVal.str ("v"))])]
  ∧ jvField (JVal.obj [("a", JVal.obj [("b", JVal.str ("1"))])]) ("x") = JVal.undefined :=
  ⟨rfl, rfl⟩

/-- C9 (amended): the utility never fails (it is a total function); for
*every* container and *every* key path whose first missing segment sits at
the end of an existing object chain: when that missing segment is the
*last* one, the parent object is rebuilt by silently appending the value
at the new key — no other key of the parent changes and every branch
diverging from the path keeps the original substructure (no
restructuring); when the missing segment is *not* the last, a fresh chain
of singleton objects for the remaining segments is created at that key,
with the value written inside it rather than at the missing key itself. -/
theorem c9_missing_segment_amended :
    (∀ (o : JVal) (pre : List String) (k : String) (e : List (String × JVal)) (v : JVal),
        objChainB pre o = true → getPath o pre = .obj e → k ∉ e.map Prod.fst →
        getPath (setKeys o (pre ++ [k]) v) pre = .obj (e ++ [(k, v)])
      ∧ (∀ qs, Diverges (pre ++ [k]) qs →
          getPath (setKeys o (pre ++ [k]) v) qs = getPath o qs))
  ∧ (∀ (o : JVal) (pre : List String) (k : String) (e : List (String × JVal))
        (rest : List String) (v : JVal),
        objChainB pre o = true → getPath o pre = .obj e → k ∉ e.map Prod.fst →
        rest ≠ [] →
        getPath o (pre ++ [k]) = .undefined
      ∧ getPath (setKeys o (pre ++ (k :: rest)) v) (pre ++ [k]) = freshChain rest v) := by
  constructor
  · intro o pre k e v hchain hpath hmem
    constructor
    · rw [getPath_setKeys_walk pre o [k] v hchain (by simp), hpath]
      rw [show setKeys (JVal.obj e) [k] v = .obj (setKey e k v) from rfl,
        setKey_of_notMem _ _ _ hmem]
    · intro qs hdiv
      exact getPath_setKeys_sibling (pre ++ [k]) qs o v
        (validPathB_append_last pre o k hchain) hdiv
  · intro o pre k e rest v hchain hpath hmem hrest
    have hget : getPath o (pre ++ [k]) = .undefined := by
      rw [getPath_append, hpath,
        show getPath (JVal.obj e) [k] = getEntry e k from rfl,
        getEntry_of_notMem _ _ hmem]
    refine ⟨hget, ?_⟩
    rw [getPath_append, getPath_setKeys_walk pre o (k :: rest) v hchain (by simp), hpath]
    rw [setKeys_cons _ _ _ _ hrest, show jsSpread (JVal.obj e) = e from rfl,
      getEntry_of_notMem _ _ hmem, setKeys_undefined_fresh rest v hrest]
    rw [show getPath (JVal.obj (setKey e k (freshChain rest v))) [k]
          = getEntry (setKey e k (freshChain rest v)) k from rfl,
      getEntry_setKey_self]

/-- C9 amended witness, on the container `{a: {b: "1"}}`: the deep path
`"a.c"` with missing last segment appends inside the nested object while
preserving the sibling `a.b`; the deep path `"a.x.y"` with missing middle
segment finds `undefined` at `a.x` and creates the fresh chain
`{y: "v"}` there. -/
theorem c9_missing_segment_amended_witness :
    getPath (setKeys (JVal.obj [("a", JVal.obj [("b", JVal.str ("1"))])])
        ([("a")] ++ [("c")]) (JVal.str ("v"))) [("a")]
      = .obj ([("b", JVal.str ("1"))] ++ [("c", JVal.str ("v"))])
  ∧ getPath (setKeys (JVal.obj [("a", JVal.obj [("b", JVal.str ("1"))])])
        ([("a")] ++ [("c")]) (JVal.str ("v"))) [("a"), ("b")]
      = getPath (JVal.obj [("a", JVal.obj [("b", JVal.str ("1"))])]) [("a"), ("b")]
  ∧ getPath (JVal.obj [("a", JVal.obj [("b", JVal.str ("1"))])])
        ([("a")] ++ [("x")]) = JVal.undefined
  ∧ getPath (setKeys (JVal.obj [("a", JVal.obj [("b", JVal.str ("1"))])])
        ([("a")] ++ (("x") :: [("y")])) (JVal.str ("v"))) ([("a")] ++ [("x")])
      = freshChain [("y")] (JVal.str ("v")) := by
  have h1 := c9_missing_segment_amended.1
    (JVal.obj [("a", JVal.obj [("b", JVal.str ("1"))])]) [("a")] ("c")
    [("b", JVal.str ("1"))] (JVal.str ("v")) rfl rfl (by decide)
  have h2 := c9_missing_segment_amended.2
    (JVal.obj [("a", JVal.obj [("b", JVal.str ("1"))])]) [("a")] ("x")
    [("b", JVal.str ("1"))] [("y")] (JVal.str ("v")) rfl rfl (by decide) (by decide)
  exact ⟨h1.1, h1.2 [("a"), ("b")] (Or.inr ⟨rfl, Or.inl (by decide)⟩), h2.1, h2.2⟩

/-- C10 (implicit): because `saveDraft` serializes the closure-captured
`state` (the state as of the render that started the save), every save
begun on a dirty state writes a snapshot whose `dirty` field is true and
whose `saving`/`error` fields are the pre-save values — for any reason and
any remote outcome — and hydrating that snapshot into any state yields a
dirty state. -/
theorem c10_snapshot_captures_presave_state (now : String) (s : WizardState)
    (reason : SaveReason) (outcome : RemoteResult) (hdirty : s.dirty = true) :
    (saveDraft now s reason outcome).storage = some (toSnapshot s)
  ∧ (toSnapshot s).dirty = some true
  ∧ (toSnapshot s).saving = some s.saving
  ∧ (toSnapshot s).error = some s.error
  ∧ (∀ (now2 : String) (s2 : WizardState),
      (reducer now2 s2 (.hydrate (toSnapshot s))).dirty = true) := by
  refine ⟨saveDraft_storage now s reason outcome, ?_, rfl, rfl, fun now2 s2 => ?_⟩
  · rw [show (toSnapshot s).dirty = some s.dirty from rfl, hdirty]
  · rw [show (reducer now2 s2 (.hydrate (toSnapshot s))).dirty
        = (toSnapshot s).dirty.getD s2.dirty from rfl,
      show (toSnapshot s).dirty = some s.dirty from rfl, hdirty, Option.getD_some]

/-- C10 witness: a successful manual save begun on a concrete dirty state
stores a snapshot with `dirty = true`, and hydrating it into the defaults
yields a dirty state. -/
theorem c10_snapshot_captures_presave_state_witness :
    (saveDraft ("t") { initialState with dirty := true } .manual .ok).storage
      = some (toSnapshot { initialState with dirty := true })
  ∧ (toSnapshot { initialState with dirty := true }).dirty = some true
  ∧ (reducer ("t2") initialState
      (.hydrate (toSnapshot { initialState with dirty := true }))).dirty = true := by
  have h := c10_snapshot_captures_presave_state ("t")
    { initialState with dirty := true } .manual .ok rfl
  exact ⟨h.1, h.2.1, h.2.2.2.2 ("t2") initialState⟩

/-- C3: dispatching CHANGE with a valid path leaves every state field but
`data` and `dirty` untouched, sets `dirty := true`, stores the new value
at the path inside `data`, and returns, at every branch diverging from the
path, the very substructure of the original `data` (the Lean rendering of
the JS structural sharing: the copy-on-write walk rebuilds only the spine
of the path and leaves every sibling entry the original reference). -/
theorem c3_change_frame (now : String) (s : WizardState) (p : String) (v : JVal)
    (hvalid : validPathB (splitDot p) s.data = true) :
    ((reducer now s (.change p v)).currentIndex = s.currentIndex
      ∧ (reducer now s (.change p v)).savedAt = s.savedAt
      ∧ (reducer now s (.change p v)).saving = s.saving
      ∧ (reducer now s (.change p v)).error = s.error
      ∧ (reducer now s (.change p v)).dirty = true)
  ∧ getPath (reducer now s (.change p v)).data (splitDot p) = v
  ∧ (∀ qs, Diverges (splitDot p) qs →
      getPath (reducer now s (.change p v)).data qs = getPath s.data qs) :=
  ⟨⟨rfl, rfl, rfl, rfl, rfl⟩,
   getPath_setKeys_self (splitDot p) s.data v hvalid,
   fun qs hdiv => getPath_setKeys_sibling (splitDot p) qs s.data v hvalid hdiv⟩

/-- C3 witness: changing the account email of the defaults leaves the
company name substructure untouched and stores the new value. -/
theorem c3_change_frame_witness :
    (reducer ("t") initialState (.change ("account.email") (.str ("x")))).dirty = true
  ∧ getPath (reducer ("t") initialState
      (.change ("account.email") (.str ("x")))).data (splitDot ("account.email"))
      = .str ("x")
  ∧ getPath (reducer ("t") initialState
      (.change ("account.email") (.str ("x")))).data [("company"), ("nameJa")]
      = getPath initialState.data [("company"), ("nameJa")] := by
  have h := c3_change_frame ("t") initialState ("account.email") (.str ("x")) rfl
  exact ⟨h.1.2.2.2.2, h.2.1, h.2.2 [("company"), ("nameJa")] (Or.inl (by decide))⟩

/-- C5: hydration two-level-merges the snapshot's `data` over the current
`data`: a key present in the snapshot's data takes the snapshot's value
and a key absent from it keeps the current value (sections missing from
the snapshot are preserved); in particular a snapshot produced from a
prior state's full five-section `data`, hydrated into any state whose
`data` has the same five sections, reproduces the prior `data` exactly. -/
theorem c5_hydrate_merge (now : String) :
    (∀ (cur : WizardState) (p : Psnap) (d : JVal), p.data = some d →
        (∀ k, k ∉ (jsSpread d).map Prod.fst →
          jvField (reducer now cur (.hydrate p)).data k
            = getEntry (jsSpread cur.data) k)
      ∧ (((jsSpread d).map Prod.fst).Nodup → ∀ k, k ∈ (jsSpread d).map Prod.fst →
          jvField (reducer now cur (.hydrate p)).data k = getEntry (jsSpread d) k))
  ∧ (∀ (cur s : WizardState), wellShapedData s.data = true →
      wellShapedData cur.data = true →
      (reducer now cur (.hydrate (toSnapshot s))).data = s.data) := by
  constructor
  · intro cur p d hd
    constructor
    · intro k hk
      rw [show (reducer now cur (.hydrate p)).data
            = .obj (spreadMerge (jsSpread cur.data)
                (match p.data with | some dd => jsSpread dd | none => [])) from rfl, hd]
      exact getEntry_spreadMerge_notMem _ _ _ hk
    · intro hnd k hk
      rw [show (reducer now cur (.hydrate p)).data
            = .obj (spreadMerge (jsSpread cur.data)
                (match p.data with | some dd => jsSpread dd | none => [])) from rfl, hd]
      exact getEntry_spreadMerge_mem _ _ _ hnd hk
  · intro cur s hs hcur
    cases hsd : s.data with
    | obj es =>
        cases hcd : cur.data with
        | obj ec =>
            rw [hsd] at hs
            rw [hcd] at hcur
            have hks : es.map Prod.fst
                = [("account"), ("company"), ("members"), ("docs"), ("review")] :=
              eq_of_beq hs
            have hkc : ec.map Prod.fst
                = [("account"), ("company"), ("members"), ("docs"), ("review")] :=
              eq_of_beq hcur
            rw [show (reducer now cur (.hydrate (toSnapshot s))).data
                  = .obj (spreadMerge (jsSpread cur.data)
                      (match (toSnapshot s).data with
                        | some dd => jsSpread dd | none => [])) from rfl]
            rw [show (toSnapshot s).data = some s.data from rfl, hsd, hcd]
            show JVal.obj (spreadMerge (jsSpread (JVal.obj ec)) (jsSpread (JVal.obj es)))
              = JVal.obj es
            rw [show jsSpread (JVal.obj ec) = ec from rfl,
              show jsSpread (JVal.obj es) = es from rfl]
            rw [spreadMerge_same_keys es ec (by rw [hks, hkc]) (by rw [hks]; decide)]
        | str a => rw [hcd] at hcur; cases hcur
        | bool a => rw [hcd] at hcur; cases hcur
        | jnull => rw [hcd] at hcur; cases hcur
        | undefined => rw [hcd] at hcur; cases hcur
    | str a => rw [hsd] at hs; cases hs
    | bool a => rw [hsd] at hs; cases hs
    | jnull => rw [hsd] at hs; cases hs
    | undefined => rw [hsd] at hs; cases hs

/-- C5 witness: a snapshot of a concrete edited state, hydrated into the
defaults, reproduces its data exactly; and hydrating a snapshot whose data
only carries an account section keeps the defaults' docs section. -/
theorem c5_hydrate_merge_witness :
    (reducer ("t") initialState
        (.hydrate (toSnapshot (accountState ("a@b.cd") ("password1"))))).data
      = (accountState ("a@b.cd") ("password1")).data
  ∧ jvField (reducer ("t") initialState
      (.hydrate { currentIndex := none, savedAt := none, dirty := none,
                  saving := none, error := none,
                  data := some (.obj [("account", JVal.str ("A"))]) })).data ("docs")
      = getEntry (jsSpread initialState.data) ("docs") := by
  constructor
  · exact (c5_hydrate_merge ("t")).2 initialState (accountState ("a@b.cd") ("password1"))
      rfl rfl
  · exact ((c5_hydrate_merge ("t")).1 initialState _ (.obj [("account", JVal.str ("A"))])
      rfl).1 ("docs") (by decide)

/-- `validateCurrent` on any state sitting at index 0 is the account-step
rule chain. -/
theorem validateCurrent_at_account (s : WizardState) (hidx : s.currentIndex = 0) :
    validateCurrent s =
      (if !jvTruthy (jvField (jvField s.data ("account")) ("email")) then
        some msgEmailRequired
       else if !emailTest (jvToString (jvField (jvField s.data ("account")) ("email")))
         then some msgEmailFormat
       else if jvLenLt (jvOr (jvField (jvField s.data ("account")) ("password"))
           (.str (""))) 8 then some msgPasswordLen
       else none) := by
  obtain ⟨i, sa, di, sv, er, da⟩ := s
  simp only at hidx
  subst hidx
  rfl

/-- C6: on the account step (index 0), with string email and password
fields, validation checks the three rules in the fixed order
required → format → password length, returns the first failing rule's
message and none when all pass; in particular the two dictated scenarios
return exactly the format message and exactly the password-length
message. -/
theorem c6_account_validation :
    (∀ (s : WizardState) (e p : String),
        s.currentIndex = 0 →
        jvField (jvField s.data ("account")) ("email") = .str e →
        jvField (jvField s.data ("account")) ("password") = .str p →
        validateCurrent s =
          (if e = "" then some msgEmailRequired
           else if emailTest e = false then some msgEmailFormat
           else if p.length < 8 then some msgPasswordLen
           else none))
  ∧ validateCurrent (accountState ("not-an-email") ("longenough1"))
      = some msgEmailFormat
  ∧ validateCurrent (accountState ("a@b.com") ("1234567")) = some msgPasswordLen := by
  refine ⟨?_, rfl, rfl⟩
  intro s e p hidx he hp
  rw [validateCurrent_at_account s hidx, he, hp]
  by_cases he0 : e = ""
  · subst he0
    simp [jvTruthy]
  · have ht : jvTruthy (.str e) = true := by simp [jvTruthy, he0]
    rw [ht, show jvToString (.str e) = e from rfl]
    have hlen : jvLenLt (jvOr (.str p) (.str (""))) 8 = decide (p.length < 8) := by
      by_cases hp0 : p = ""
      · subst hp0
        simp [jvOr, jvTruthy, jvLenLt]
      · simp [jvOr, jvTruthy, jvLenLt, hp0]
    rw [hlen]
    cases hf : emailTest e with
    | false => simp [he0, hf]
    | true =>
        by_cases hl : p.length < 8
        · simp [he0, hf, hl]
        · simp [he0, hf, hl]

/-- C6 witness: a well-formed email with an eight-character password
passes the account validation. -/
theorem c6_account_validation_witness :
    validateCurrent (accountState ("x@y.zz") ("abcdefgh")) =
      (if ("x@y.zz" : String) = "" then some msgEmailRequired
       else if emailTest ("x@y.zz") = false then some msgEmailFormat
       else if ("abcdefgh" : String).length < 8 then some msgPasswordLen
       else none) :=
  c6_account_validation.1 (accountState ("x@y.zz") ("abcdefgh"))
    ("x@y.zz") ("abcdefgh") rfl rfl rfl

/-- C7: save-and-continue validates the current step first; on a
validation error it only sets that error message — same storage, no remote
call, every other state field (the index in particular) untouched; on
validation success it performs the manual save (snapshot written, remote
call made) and then advances the index by exactly one except on the last
step, never leaving the bounds of the five-step list. -/
theorem c7_save_and_continue (now : String) (s : WizardState) (st : Option Psnap)
    (outcome : RemoteResult) (hlo : 0 ≤ s.currentIndex) (hhi : s.currentIndex ≤ 4) :
    (∀ err, validateCurrent s = some err →
        handleSaveAndContinue now s st outcome =
          { state := { s with error := some err }, storage := st,
            remoteCalled := false })
  ∧ (validateCurrent s = none →
        (handleSaveAndContinue now s st outcome).storage = some (toSnapshot s)
      ∧ (handleSaveAndContinue now s st outcome).remoteCalled = true
      ∧ (handleSaveAndContinue now s st outcome).state.currentIndex =
          (if s.currentIndex < 4 then s.currentIndex + 1 else s.currentIndex)
      ∧ 0 ≤ (handleSaveAndContinue now s st outcome).state.currentIndex
      ∧ (handleSaveAndContinue now s st outcome).state.currentIndex ≤ 4) := by
  constructor
  · intro err hv
    simp only [handleSaveAndContinue, hv]
    rfl
  · intro hv
    simp only [handleSaveAndContinue, hv]
    have hlen : ((STEPS.length : Int) - 1) = 4 := by decide
    refine ⟨saveDraft_storage now s .manual outcome, rfl, ?_⟩
    rw [hlen]
    by_cases hc : s.currentIndex < 4
    · simp only [if_pos hc, reducer_goto_currentIndex]
      refine ⟨trivial, by omega, by omega⟩
    · simp only [if_neg hc]
      rw [saveDraft_currentIndex]
      exact ⟨rfl, hlo, hhi⟩

/-- C7 witness: at a concrete account state that validates, save-and-
continue writes the snapshot, calls the remote stub and advances from
index 0 to index 1. -/
theorem c7_save_and_continue_witness :
    (handleSaveAndContinue ("t") (accountState ("x@y.zz") ("abcdefgh")) none .ok).storage
      = some (toSnapshot (accountState ("x@y.zz") ("abcdefgh")))
  ∧ (handleSaveAndContinue ("t") (accountState ("x@y.zz") ("abcdefgh")) none
      .ok).remoteCalled = true
  ∧ (handleSaveAndContinue ("t") (accountState ("x@y.zz") ("abcdefgh")) none
      .ok).state.currentIndex =
        (if (accountState ("x@y.zz") ("abcdefgh")).currentIndex < 4 then
          (accountState ("x@y.zz") ("abcdefgh")).currentIndex + 1
         else (accountState ("x@y.zz") ("abcdefgh")).currentIndex) := by
  have h := (c7_save_and_continue ("t") (accountState ("x@y.zz") ("abcdefgh")) none .ok
    (by decide) (by decide)).2 rfl
  exact ⟨h.1, h.2.1, h.2.2.1⟩

/-- C8: in every state the component's own event handlers can reach from a
fresh start (including hydrating, saving, relaunching and resetting),
`currentIndex` is a valid index of the five-step list, and every snapshot
the program itself stored carries a valid index too; moreover `next` is a
no-op at the last index and `prev` a no-op at index 0, on any state at
all. -/
theorem c8_index_bounds :
    (∀ (s : WizardState) (st : Option Psnap), Reachable s st →
        (0 ≤ s.currentIndex ∧ s.currentIndex ≤ 4)
      ∧ (∀ p, st = some p → ∀ i, p.currentIndex = some i → 0 ≤ i ∧ i ≤ 4))
  ∧ (∀ (now : String) (s : WizardState), s.currentIndex = 4 → next now s = s)
  ∧ (∀ (now : String) (s : WizardState), s.currentIndex = 0 → prev now s = s) := by
  refine ⟨?_, ?_, ?_⟩
  · intro s st h
    induction h with
    | init => exact ⟨by decide, fun p hp => Option.noConfusion hp⟩
    | relaunch h ih => exact ⟨by decide, ih.2⟩
    | hydrateLoad now h hst ih =>
        refine ⟨?_, ih.2⟩
        rename_i s1 st1 p1
        show (0 ≤ p1.currentIndex.getD s1.currentIndex
          ∧ p1.currentIndex.getD s1.currentIndex ≤ 4)
        cases hpc : p1.currentIndex with
        | none => simpa using ih.1
        | some i => simpa using ih.2 p1 hst i hpc
    | stepClick now i h h0 h5 ih =>
        refine ⟨?_, ih.2⟩
        simp only [reducer_goto_currentIndex]
        omega
    | prevClick now h ih =>
        refine ⟨?_, ih.2⟩
        rename_i s1 st1
        obtain ⟨⟨hl, hh⟩, _⟩ := ih
        by_cases hc : s1.currentIndex > 0
        · simp only [prev, if_pos hc, reducer_goto_currentIndex]
          omega
        · simp only [prev, if_neg hc]
          exact ⟨hl, hh⟩
    | changeField now p v h ih => exact ⟨ih.1, ih.2⟩
    | save now reason outcome h ih =>
        rename_i s1 st1
        constructor
        · rw [saveDraft_currentIndex]
          exact ih.1
        · intro p hp i hi
          rw [saveDraft_storage] at hp
          injection hp with hp2
          subst hp2
          have hi2 : some s1.currentIndex = some i := hi
          injection hi2 with hi3
          rw [← hi3]
          exact ih.1
    | saveAndContinue now outcome h ih =>
        rename_i s1 st1
        cases hv : validateCurrent s1 with
        | some err =>
            simp only [handleSaveAndContinue, hv]
            exact ⟨ih.1, ih.2⟩
        | none =>
            simp only [handleSaveAndContinue, hv]
            have hlen : ((STEPS.length : Int) - 1) = 4 := by decide
            constructor
            · rw [hlen]
              obtain ⟨⟨hl, hh⟩, _⟩ := ih
              by_cases hc : s1.currentIndex < 4
              · simp only [if_pos hc, reducer_goto_currentIndex]
                omega
              · simp only [if_neg hc]
                rw [saveDraft_currentIndex]
                exact ⟨hl, hh⟩
            · intro p hp i hi
              have hp2 : some (toSnapshot s1) = some p := hp
              injection hp2 with hp3
              subst hp3
              have hi2 : some s1.currentIndex = some i := hi
              injection hi2 with hi3
              rw [← hi3]
              exact ih.1
    | reset h ih => exact ⟨by decide, fun p hp => Option.noConfusion hp⟩
  · intro now s h4
    unfold next
    rw [h4, if_neg (by decide)]
  · intro now s h0
    unfold prev
    rw [h0, if_neg (by decide)]

/-- C8 witness: the invariant instantiated at the initial configuration. -/
theorem c8_index_bounds_witness :
    0 ≤ initialState.currentIndex ∧ initialState.currentIndex ≤ 4 :=
  (c8_index_bounds.1 initialState none Reachable.init).1

end Wizard
